import Mathlib

/-!
# Verification of the `lcm` serial protocol driver

A shallow embedding of the Go package `lcm` (ASUSTOR LCD display driver):
the message model (`message.go`), the inbound frame codec
(`recvMessage.WriteByte`), the outbound framing (`(*LCM).Send`,
`(*LCM).forceFlushMCU`), the handler state machine (`(*LCM).handle`),
and the `SetDisplay` / `Scroll` producers.  Bytes are modelled as `Nat`
with explicit `% 256` where the Go code relies on `byte` wrap-around.
Fallible operations return `Option` / sum types; a `none` models a Go
panic (index out of range) where the source has no guard.
-/

namespace LCM

/-- Go `Type` constant `Command = 0xF0` (`message.go`). -/
def Command : Nat := 0xF0

/-- Go `Type` constant `Reply = 0xF1` (`message.go`). -/
def Reply : Nat := 0xF1

/-- Function byte `fflush = 0x00` (`message.go`). -/
def fflush : Nat := 0x00

/-- Function byte `Fon = 0x11` (`message.go`). -/
def Fon : Nat := 0x11

/-- Function byte `Fversion = 0x13` (`message.go`). -/
def Fversion : Nat := 0x13

/-- Function byte `Ftext = 0x27` (`message.go`). -/
def Ftext : Nat := 0x27

/-- `checksum` from `lcm.go`: byte-sum of all bytes, with `byte`
wrap-around on every addition (hence the running `% 256`). -/
def checksum (b : List Nat) : Nat :=
  b.foldl (fun s c => (s + c) % 256) 0

/-- `Message.Type` (`message.go`): first byte, or `0` for the empty
message. -/
def TypeOf (m : List Nat) : Nat :=
  match m with
  | [] => 0
  | c :: _ => c

/-- `Message.Function` (`message.go`): returns `0` for the empty message,
otherwise reads `m[2]`; `none` models the Go index-out-of-range panic on
a non-empty message shorter than 3 bytes. -/
def FunctionOf (m : List Nat) : Option Nat :=
  match m with
  | [] => some 0
  | _ => m[2]?

/-- `Message.Value` (`message.go`): returns `nil` for the empty message,
otherwise the slice `m[3 : 3+m[1]]`; `none` models the Go slice
out-of-range panic. -/
def ValueOf (m : List Nat) : Option (List Nat) :=
  match m with
  | [] => some []
  | _ =>
    match m[1]? with
    | none => none
    | some l => if 3 + l ≤ m.length then some ((m.drop 3).take l) else none

/-- `Message.Ok` (`message.go`): returns `false` for the empty message,
otherwise `m[3] == 0`; `none` models the Go index panic. -/
def OkOf (m : List Nat) : Option Bool :=
  match m with
  | [] => some false
  | _ => m[3]?.map fun v => v = 0

/-- `Message.ReplyOk` (`message.go`): for a Command, the stock success
Reply `[Reply, 0x01, function, 0x00]`; otherwise `nil`. -/
def ReplyOk (m : List Nat) : List Nat :=
  if TypeOf m = Command then [Reply, 0x01, m.getD 2 0, 0x00] else []

/-- The three error cases of `Message.Check` (`message.go`). -/
inductive CheckErr where
  | tooShort
  | unknownType
  | wrongLength
deriving DecidableEq

/-- `Message.Check` (`message.go`): `none` means the message is valid.
Valid iff length ≥ 4, first byte is Command or Reply, and
`m[1] + 3 = length`. -/
def Check (m : List Nat) : Option CheckErr :=
  if m.length < 4 then some .tooShort
  else if TypeOf m ≠ Command ∧ TypeOf m ≠ Reply then some .unknownType
  else if m.getD 1 0 + 3 ≠ m.length then some .wrongLength
  else none

/-- Outbound framing performed by `(*LCM).Send` (`lcm.go`): append the
checksum byte to the message. -/
def encode (m : List Nat) : List Nat :=
  m ++ [checksum m]

/-- `flushMCUBuffer` (`message.go`): the made-up flush command. -/
def flushMCUBuffer : List Nat := [Command, 0x01, fflush, 0x00]

/-- `DisplayOn` (`message.go`). -/
def DisplayOn : List Nat := [Command, 0x01, Fon, 0x01]

/-!
## Inbound frame codec

`recvMessage` and `WriteByte` from the second (guarded) draft of the
codec (`src/unnamed/part_001`, lines 97-140), plus the `copyBytes` /
`(*LCM).read` loop that feeds it.
-/

/-- State of `recvMessage`: accumulated buffer, expected total length
(`len`, 0 until the second byte arrives), running checksum (`sum`).
`len` and `sum` are Go `uint8`, so they carry `% 256`. -/
structure RecvMessage where
  buf : List Nat
  len : Nat
  sum : Nat
deriving DecidableEq

/-- A freshly `Reset` codec. -/
def RecvMessage.init : RecvMessage := ⟨[], 0, 0⟩

/-- The `parsingError` cases of `WriteByte`. -/
inductive ParseErr where
  | invalidFrame
  | frameTooLong
  | invalidChecksum
  | invalidSize
deriving DecidableEq

/-- Result of one `WriteByte` call: continue (`ok`), end-of-frame
(`eof`, the Go `io.EOF` success signal), or a parsing error. -/
inductive WriteResult where
  | ok (st : RecvMessage)
  | eof (st : RecvMessage)
  | err (e : ParseErr) (st : RecvMessage)
deriving DecidableEq

/-- `recvMessage.WriteByte` (`src/unnamed/part_001`, guarded draft).
`n` is the buffer length before the write, truncated to `uint8`; the
byte is appended to the buffer before any check; `sum` is only updated
on the non-returning paths, exactly as in the Go `switch`. -/
def WriteByte (st : RecvMessage) (c : Nat) : WriteResult :=
  let n := st.buf.length % 256
  let buf := st.buf ++ [c]
  if n = 0 then
    if c = Command ∨ c = Reply then .ok ⟨buf, st.len, (st.sum + c) % 256⟩
    else .err .invalidFrame ⟨buf, st.len, st.sum⟩
  else if n = 1 then
    if st.buf.headD 0 = Reply ∧ c > 1 then .err .frameTooLong ⟨buf, st.len, st.sum⟩
    else if c > 16 then .err .frameTooLong ⟨buf, st.len, st.sum⟩
    else .ok ⟨buf, (3 + c) % 256, (st.sum + c) % 256⟩
  else if n = st.len then
    if st.sum = c then .eof ⟨buf, st.len, st.sum⟩
    else .err .invalidChecksum ⟨buf, st.len, st.sum⟩
  else if n > st.len then .err .invalidSize ⟨buf, st.len, st.sum⟩
  else .ok ⟨buf, st.len, (st.sum + c) % 256⟩

/-- Outcome of feeding a byte stream through the codec (`copyBytes`):
a completed frame (the codec's buffer at `io.EOF`, checksum included),
a parsing error, or the stream ran out before end-of-frame. -/
inductive CodecResult where
  | success (frame : List Nat)
  | failure (e : ParseErr) (st : RecvMessage)
  | incomplete (st : RecvMessage)
deriving DecidableEq

/-- Is the outcome a completed frame? -/
def CodecResult.isSuccess : CodecResult → Bool
  | .success _ => true
  | _ => false

/-- `copyBytes` (`src/unnamed/part_001`): feed bytes one at a time until
`WriteByte` signals end-of-frame or fails.  Bytes after end-of-frame are
left unconsumed (they belong to the next frame). -/
def runCodec (st : RecvMessage) : List Nat → CodecResult
  | [] => .incomplete st
  | c :: rest =>
    match WriteByte st c with
    | .eof st' => .success st'.buf
    | .err e st' => .failure e st'
    | .ok st' => runCodec st' rest

/-!
## `SetDisplay` and `Scroll` (`message.go`)
-/

/-- The `BadArgument` errors of `SetDisplay`. -/
inductive SetDisplayErr where
  | lineOutOfBounds
  | indentOutOfBounds
  | textTooLong
deriving DecidableEq

instance {ε α : Type} [DecidableEq ε] [DecidableEq α] : DecidableEq (Except ε α) := fun a b =>
  match a, b with
  | .error x, .error y =>
    if h : x = y then .isTrue (by rw [h]) else .isFalse (by simp [h])
  | .ok x, .ok y =>
    if h : x = y then .isTrue (by rw [h]) else .isFalse (by simp [h])
  | .error _, .ok _ => .isFalse (by simp)
  | .ok _, .error _ => .isFalse (by simp)

/-- `SetDisplay` (`message.go`).  `line` and `indent` are Go `int`s
(hence `Int` here); text bytes shorter than 16 are right-padded with
ASCII space (0x20); `byte(line)` / `byte(indent)` truncate to the low
8 bits, which `Int.emod 256` models (Euclidean, always non-negative).
The Go guards are: `line != DisplayTop && line != DisplayBottom`,
`indent > 0xF`, `len(text) > 16` — note there is no lower bound check
on `indent`. -/
def SetDisplay (line indent : Int) (text : List Nat) :
    Except SetDisplayErr (List Nat) :=
  if line ≠ 0 ∧ line ≠ 1 then .error .lineOutOfBounds
  else if indent > 0xF then .error .indentOutOfBounds
  else if text.length > 16 then .error .textTooLong
  else
    let padded := text ++ List.replicate (16 - text.length) 0x20
    .ok ([Command, 0x12, Ftext, (line % 256).toNat, (indent % 256).toNat] ++ padded)

/-- Is a `SetDisplay` result a success? -/
def SetDisplayOk {ε α : Type} : Except ε α → Bool
  | .ok _ => true
  | .error _ => false

/-- The window of at most 16 bytes starting at `i`: Go's
`trunc := text[i:]; if len(trunc) > 16 { trunc = trunc[:16] }`. -/
def window (text : List Nat) (i : Nat) : List Nat :=
  (text.drop i).take 16

/-- State captured by the `Scroll` closure (`message.go`): the index `i`
and the sticky `done` flag. -/
structure ScrollState where
  i : Nat
  done : Bool
deriving DecidableEq

/-- One invocation of the closure returned by `Scroll` (`message.go`).
Go compares `i` (always ≥ 0) against `len(text)-16` over the integers:
`i >= len(text)-16` is `i + 16 ≥ len` and `i > len(text)-16` is
`i + 16 > len`.  The emitted frame is `SetDisplay(line, 0, trunc)` with
the error ignored (`b, _ := ...`), so a failed encode yields `[]`. -/
def scrollNext (line : Int) (text : List Nat) (s : ScrollState) :
    (List Nat × Bool × Bool) × ScrollState :=
  let done := if s.i + 16 ≥ text.length then true else s.done
  let i := if s.i + 16 > text.length then 0 else s.i
  let start := i = 0
  let raw :=
    match SetDisplay line 0 (window text i) with
    | .ok b => b
    | .error _ => []
  ((raw, start, done), ⟨i + 1, done⟩)

/-- Drive the `Scroll` closure until the first emission with
`start && done` (the documented stopping condition), with fuel to make
the recursion structural. -/
def scrollRun (line : Int) (text : List Nat) :
    Nat → ScrollState → List (List Nat × Bool × Bool)
  | 0, _ => []
  | fuel + 1, s =>
    let (e, s') := scrollNext line text s
    if e.2.1 ∧ e.2.2 then [e] else e :: scrollRun line text fuel s'

/-- The full emission trace of one `Scroll` rotation, from the initial
closure state `i = 0, done = false`.  `text.length + 2` fuel is enough
for the run to reach its stopping condition. -/
def scrollTrace (line : Int) (text : List Nat) : List (List Nat × Bool × Bool) :=
  scrollRun line text (text.length + 2) ⟨0, false⟩

/-!
## Protocol engine (`(*LCM).handle`, `lcm.go` lines 515-669)

The handler loop is a single-threaded event loop; one iteration selects
an event (inbound frame, reply timeout, or — only when idle — a new
send) and processes it.  `step` is that one iteration.  The per-send
closures `handleReply` / `retry` and the `replyTimeout` timer are
modelled by an `Option Pending` slot: they are installed and cleared
together in the source.  Sleeps, logging and the context-cancellation
arm are omitted; transport writes always succeed (the `wErr` path is
dead under that assumption).
-/

/-- `DefaultRetryLimit` (`lcm.go`). -/
def DefaultRetryLimit : Nat := 50

/-- The write issued by `(*LCM).forceFlushMCU` (`lcm.go` lines 430-443):
`flushMCUBuffer` plus its checksum, the whole thing duplicated, written
in a single `Write` call. -/
def forceFlushData : List Nat :=
  let data := flushMCUBuffer ++ [checksum flushMCUBuffer]
  data ++ data

/-- A queued send (`sendMessage` in `lcm.go`): the frame (checksum
already appended by `Send`) and the retry limit. -/
structure SendReq where
  data : List Nat
  retryLimit : Nat
deriving DecidableEq

/-- The per-send state captured by the `handleReply` / `retry` closures:
the request and the `tries` counter. -/
structure Pending where
  req : SendReq
  tries : Nat
deriving DecidableEq

/-- Handler state: `none` when idle, `some p` while a send is in flight
(equivalently, while `replyTimeout` is armed — the source installs and
clears `handleReply`, `retry` and `replyTimeout` together). -/
structure HState where
  pending : Option Pending
deriving DecidableEq

/-- Engine options relevant to the handler: `EnableProtocolAckReply`. -/
structure Opts where
  ack : Bool
deriving DecidableEq

/-- Events one loop iteration can select: a completed inbound frame
(checksum included, as delivered by the reader), the reply timeout
firing (only possible while a send is in flight), or a new send from
`writeC` (only selected while idle). -/
inductive Event where
  | recv (msg : List Nat)
  | timeout
  | send (req : SendReq)
deriving DecidableEq

/-- Observable effects of one iteration: a serial-port write, completion
of the in-flight send (success, or retry-limit-exceeded carrying the Go
error's `tries-1` / `retryLimit` numbers), and forwarding a message to
the application receive channel `readC`. -/
inductive Output where
  | write (data : List Nat)
  | completeOk
  | completeErr (tries limit : Nat)
  | forward (msg : List Nat)
deriving DecidableEq

/-- The `retry` closure (`lcm.go` lines 575-603): if `tries` already
exceeds the limit, complete the send with the retry-exceeded error
(reporting `tries - 1`); otherwise increment `tries` and write the
frame, re-arming the timeout. -/
def doRetry (p : Pending) : HState × List Output :=
  if p.tries > p.req.retryLimit then
    (⟨none⟩, [.completeErr (p.tries - 1) p.req.retryLimit])
  else
    (⟨some ⟨p.req, p.tries + 1⟩⟩, [.write p.req.data])

/-- The inbound `switch` plus forwarding (`lcm.go` lines 616-667), for a
message not consumed by `handleReply`: if it is a Command and ack is
enabled, write the stock success reply with its checksum (no function is
exempted in the source); Reply and unknown kinds are only logged; then
the checksum is stripped and the message forwarded to `readC`. -/
def stepForward (o : Opts) (st : HState) (msg : List Nat) : HState × List Output :=
  let ackOuts :=
    if TypeOf msg = Command ∧ o.ack then
      [Output.write (ReplyOk msg ++ [checksum (ReplyOk msg)])]
    else []
  (st, ackOuts ++ [.forward msg.dropLast])

/-- One iteration of the `(*LCM).handle` loop (`lcm.go` lines 523-668).

* `recv msg` with a send in flight whose function matches a Reply:
  `handleReply` — complete on `Ok`, otherwise log only (lines 553-571);
  either way the message is consumed (`continue`).
* `recv msg` otherwise: inbound `switch` — if it is a Command and ack is
  enabled, write the stock success reply (lines 616-639, no function is
  exempted); then strip the checksum and forward (lines 652-667).
* `timeout`: `forceFlushMCU` then `retry()` (lines 533-536).
* `send req`: install the closures with `tries = 0` and run the first
  `retry()` (lines 547-605); ignored unless idle (the source only
  selects `writeC` when `replyTimeout` is nil). -/
def step (o : Opts) (st : HState) : Event → HState × List Output
  | .recv msg =>
    if msg.length = 0 then (st, [])
    else
      match st.pending with
      | some p =>
        if TypeOf msg = Reply ∧ FunctionOf msg = FunctionOf p.req.data then
          if OkOf msg = some true then (⟨none⟩, [.completeOk])
          else (st, [])
        else stepForward o st msg
      | none => stepForward o st msg
  | .timeout =>
    match st.pending with
    | some p =>
      let (st', outs) := doRetry p
      (st', .write forceFlushData :: outs)
    | none => (st, [])
  | .send req =>
    match st.pending with
    | some _ => (st, [])
    | none => doRetry ⟨req, 0⟩

/-- Run the handler over a list of events, collecting all outputs. -/
def runEvents (o : Opts) (st : HState) : List Event → HState × List Output
  | [] => (st, [])
  | e :: es =>
    let (st', outs) := step o st e
    let (st'', rest) := runEvents o st' es
    (st'', outs ++ rest)

/-- Number of writes of a given byte sequence among the outputs. -/
def countWrites (data : List Nat) (outs : List Output) : Nat :=
  outs.countP fun out => decide (out = Output.write data)

/-!
## Codec lemmas
-/

lemma checksum_foldl_mod (b : List Nat) :
    ∀ a, List.foldl (fun s c => (s + c) % 256) a b % 256 = (a + b.sum) % 256 := by
  induction b with
  | nil => intro a; simp
  | cons c tl ih =>
    intro a
    simp only [List.foldl_cons, List.sum_cons]
    rw [ih ((a + c) % 256), Nat.mod_add_mod, Nat.add_assoc]

lemma checksum_foldl_lt (b : List Nat) :
    ∀ a, a < 256 → List.foldl (fun s c => (s + c) % 256) a b < 256 := by
  induction b with
  | nil => intro a h; simpa using h
  | cons c tl ih =>
    intro a h
    simp only [List.foldl_cons]
    exact ih _ (Nat.mod_lt _ (by omega))

/-- The running byte-wise checksum equals the byte sum mod 256. -/
lemma checksum_eq_sum_mod (b : List Nat) : checksum b = b.sum % 256 := by
  have h := checksum_foldl_mod b 0
  rw [Nat.mod_eq_of_lt (checksum_foldl_lt b 0 (by omega))] at h
  simpa [checksum] using h

/-- On a strictly interior byte (index ≥ 2, before the checksum
position), `WriteByte` appends and accumulates. -/
lemma writeByte_mid (st : RecvMessage) (c : Nat) (h2 : 2 ≤ st.buf.length)
    (hlt : st.buf.length < st.len) (hlen : st.len < 256) :
    WriteByte st c = .ok ⟨st.buf ++ [c], st.len, (st.sum + c) % 256⟩ := by
  have hmod : st.buf.length % 256 = st.buf.length := Nat.mod_eq_of_lt (by omega)
  simp only [WriteByte, hmod]
  rw [if_neg (by omega), if_neg (by omega), if_neg (by omega), if_neg (by omega)]

/-- At the checksum position, `WriteByte` compares the running checksum. -/
lemma writeByte_last (st : RecvMessage) (c : Nat) (h2 : 2 ≤ st.buf.length)
    (heq : st.buf.length = st.len) (hlen : st.len < 256) :
    WriteByte st c =
      if st.sum = c then .eof ⟨st.buf ++ [c], st.len, st.sum⟩
      else .err .invalidChecksum ⟨st.buf ++ [c], st.len, st.sum⟩ := by
  have hmod : st.buf.length % 256 = st.buf.length := Nat.mod_eq_of_lt (by omega)
  simp only [WriteByte, hmod]
  rw [if_neg (by omega), if_neg (by omega), if_pos heq]

/-- Feeding interior bytes appends them all and accumulates their sum. -/
lemma runCodec_feed (mid : List Nat) :
    ∀ (st : RecvMessage) (rest : List Nat), 2 ≤ st.buf.length →
      st.buf.length + mid.length ≤ st.len → st.len < 256 → st.sum < 256 →
      runCodec st (mid ++ rest) =
        runCodec ⟨st.buf ++ mid, st.len, (st.sum + mid.sum) % 256⟩ rest := by
  induction mid with
  | nil =>
    intro st rest _ _ _ hsum
    simp [Nat.mod_eq_of_lt hsum]
  | cons c tl ih =>
    intro st rest h2 hle hlen hsum
    have hle' : st.buf.length + tl.length + 1 ≤ st.len := by simpa using hle
    have hstep : runCodec st ((c :: tl) ++ rest) =
        runCodec ⟨st.buf ++ [c], st.len, (st.sum + c) % 256⟩ (tl ++ rest) := by
      rw [List.cons_append, runCodec, writeByte_mid st c h2 (by omega) hlen]
    rw [hstep, ih ⟨st.buf ++ [c], st.len, (st.sum + c) % 256⟩ rest
      (by show 2 ≤ (st.buf ++ [c]).length; simp; omega)
      (by show (st.buf ++ [c]).length + tl.length ≤ st.len; simp; omega)
      hlen (Nat.mod_lt _ (by omega))]
    simp [Nat.mod_add_mod, Nat.add_assoc]

/-- If the codec succeeds from a state already past the length byte, the
completed frame is the buffer extended to exactly `len + 1` bytes. -/
lemma runCodec_success_mid (bs : List Nat) :
    ∀ (st : RecvMessage) (frame : List Nat), 2 ≤ st.buf.length →
      st.buf.length ≤ st.len → st.len < 256 →
      runCodec st bs = .success frame →
      frame = st.buf ++ bs.take (st.len + 1 - st.buf.length) ∧
      frame.length = st.len + 1 := by
  induction bs with
  | nil =>
    intro st frame _ _ _ h
    simp [runCodec] at h
  | cons c rest ih =>
    intro st frame h2 hle hlen h
    rcases eq_or_lt_of_le hle with heq | hlt
    · rw [runCodec, writeByte_last st c h2 heq hlen] at h
      by_cases hc : st.sum = c
      · rw [if_pos hc] at h
        have hfr : frame = st.buf ++ [c] := by
          have : CodecResult.success (st.buf ++ [c]) = CodecResult.success frame := h
          simpa using this.symm
        subst hfr
        have h1 : st.len + 1 - st.buf.length = 1 := by omega
        refine ⟨?_, by simp; omega⟩
        rw [h1, List.take_succ_cons, List.take_zero]
      · rw [if_neg hc] at h
        simp at h
    · have hstep : runCodec st (c :: rest) =
          runCodec ⟨st.buf ++ [c], st.len, (st.sum + c) % 256⟩ rest := by
        rw [runCodec, writeByte_mid st c h2 hlt hlen]
      rw [hstep] at h
      obtain ⟨hf, hflen⟩ := ih ⟨st.buf ++ [c], st.len, (st.sum + c) % 256⟩ frame
        (by simp; omega) (by simp; omega) hlen h
      refine ⟨?_, by simpa using hflen⟩
      rw [hf]
      simp only [List.length_append, List.length_singleton]
      have hn : st.len + 1 - st.buf.length = (st.len + 1 - (st.buf.length + 1)) + 1 := by
        omega
      rw [hn, List.take_succ_cons, List.append_assoc, List.singleton_append]

/-!
## C1 — encode/decode round trip
-/

/-- **C1, counterexample.**  The claim quantifies over every message that
passes `Check` (length ≥ 4, kind Command/Reply, `LEN + 3 = length`).
The Reply message `F1 02 11 00 00` passes `Check`, but the inbound codec
rejects its encoding at the length byte (`reply message too long`), so
decoding `encode m` does not yield `m`. -/
theorem c1_roundtrip_cex :
    Check [0xF1, 2, 0x11, 0, 0] = none ∧
    (runCodec .init (encode [0xF1, 2, 0x11, 0, 0])).isSuccess = false := by
  decide

/-- **C1, amended.**  For every message `m` that passes `Check` and also
satisfies the codec's length guards (`LEN ≤ 16` for a Command, `LEN ≤ 1`
for a Reply), feeding `encode m` byte-by-byte into a reset codec
terminates with end-of-frame, yields exactly the sent frame, and
stripping the checksum (as `(*LCM).handle` does) gives back `m`. -/
theorem c1_roundtrip (m : List Nat) (h : Check m = none)
    (hcmd : TypeOf m = Command → m.getD 1 0 ≤ 16)
    (hrep : TypeOf m = Reply → m.getD 1 0 ≤ 1) :
    runCodec .init (encode m) = .success (encode m) ∧
    (encode m).dropLast = m := by
  unfold Check at h
  split_ifs at h with h1 h2 h3
  push_neg at h2 h3
  have hlen4 : 4 ≤ m.length := by omega
  rcases m with _ | ⟨t, _ | ⟨l, rest⟩⟩
  · simp at hlen4
  · simp at hlen4
  · have hty : t = Command ∨ t = Reply := by
      rcases eq_or_ne t Command with hc | hc
      · exact Or.inl hc
      · exact Or.inr (by simpa [TypeOf] using h2 (by simpa [TypeOf] using hc))
    have hgd : (t :: l :: rest).getD 1 0 = l := by simp [List.getD]
    have hlm : l + 3 = rest.length + 2 := by
      rw [hgd] at h3; simpa using h3
    have hl16 : l ≤ 16 := by
      rcases hty with hty | hty
      · exact hgd ▸ hcmd (by simp [TypeOf, hty])
      · have := hgd ▸ hrep (by simp [TypeOf, hty])
        omega
    have hw0 : WriteByte .init t = .ok ⟨[t], 0, t % 256⟩ := by
      simp [WriteByte, RecvMessage.init, hty]
    have hw1 : WriteByte ⟨[t], 0, t % 256⟩ l = .ok ⟨[t, l], 3 + l, (t + l) % 256⟩ := by
      have hg1 : ¬(t = Reply ∧ 1 < l) := by
        rcases hty with hty | hty
        · simp [hty, Command, Reply]
        · have := hgd ▸ hrep (by simp [TypeOf, hty])
          simp [hty]
          omega
      have hg2 : ¬(16 < l) := by omega
      have hm : (3 + l) % 256 = 3 + l := Nat.mod_eq_of_lt (by omega)
      simp [WriteByte, hg1, hg2, hm, Nat.mod_add_mod]
    have hsum : (t :: l :: rest).sum = t + l + rest.sum := by
      simp [Nat.add_assoc]
    have hfeed := runCodec_feed rest ⟨[t, l], 3 + l, (t + l) % 256⟩
      [checksum (t :: l :: rest)] (by show 2 ≤ ([t, l] : List Nat).length; simp)
      (by show ([t, l] : List Nat).length + rest.length ≤ 3 + l; simp; omega)
      (by show 3 + l < 256; omega)
      (Nat.mod_lt _ (by omega))
    have hck : checksum (t :: l :: rest) = (t + l + rest.sum) % 256 := by
      rw [checksum_eq_sum_mod, hsum]
    have hlast : WriteByte ⟨t :: l :: rest, 3 + l, (t + l + rest.sum) % 256⟩
        (checksum (t :: l :: rest)) =
        .eof ⟨(t :: l :: rest) ++ [checksum (t :: l :: rest)], 3 + l,
          (t + l + rest.sum) % 256⟩ := by
      rw [writeByte_last _ _ (by show 2 ≤ (t :: l :: rest).length; simp)
        (by show (t :: l :: rest).length = 3 + l; simp; omega)
        (by show 3 + l < 256; omega), if_pos hck.symm]
    constructor
    · have hs0 : runCodec .init (encode (t :: l :: rest)) =
          runCodec ⟨[t], 0, t % 256⟩ (l :: (rest ++ [checksum (t :: l :: rest)])) := by
        show runCodec .init
          (t :: (l :: (rest ++ [checksum (t :: l :: rest)]))) = _
        rw [runCodec, hw0]
      have hs1 : runCodec ⟨[t], 0, t % 256⟩
          (l :: (rest ++ [checksum (t :: l :: rest)])) =
          runCodec ⟨[t, l], 3 + l, (t + l) % 256⟩
            (rest ++ [checksum (t :: l :: rest)]) := by
        rw [runCodec, hw1]
      have hs3 : runCodec ⟨t :: l :: rest, 3 + l, (t + l + rest.sum) % 256⟩
          [checksum (t :: l :: rest)] =
          .success ((t :: l :: rest) ++ [checksum (t :: l :: rest)]) := by
        rw [runCodec, hlast]
      rw [hs0, hs1, hfeed, show ((t + l) % 256 + rest.sum) % 256 =
        (t + l + rest.sum) % 256 from Nat.mod_add_mod _ _ _]
      show runCodec ⟨t :: l :: rest, 3 + l, (t + l + rest.sum) % 256⟩
        [checksum (t :: l :: rest)] = _
      rw [hs3]
      rfl
    · exact List.dropLast_concat

/-- **C1, witness.** -/
theorem c1_roundtrip_witness :
    Check DisplayOn = none ∧
    (runCodec .init (encode DisplayOn) = .success (encode DisplayOn) ∧
      (encode DisplayOn).dropLast = DisplayOn) :=
  ⟨by decide, c1_roundtrip DisplayOn (by decide) (by decide) (by decide)⟩

/-!
## C5 — frame length
-/

/-- **C5, counterexample.**  The claim says a complete frame is `LEN + 3`
bytes and the codec signals end-of-frame after exactly `LEN + 3` bytes.
For the flush frame `F0 01 00 00 F1` (`LEN = 1`): after `LEN + 3 = 4`
bytes the codec has not signalled end-of-frame; the frame completes only
at its 5th byte, i.e. `LEN + 4` bytes on the wire. -/
theorem c5_frame_length_cex :
    (runCodec .init [0xF0, 0x01, 0x00, 0x00]).isSuccess = false ∧
    runCodec .init [0xF0, 0x01, 0x00, 0x00, 0xF1] =
      .success [0xF0, 0x01, 0x00, 0x00, 0xF1] ∧
    [0xF0, 0x01, 0x00, 0x00].getD 1 0 + 3 = 4 ∧
    ([0xF0, 0x01, 0x00, 0x00, 0xF1] : List Nat).length =
      [0xF0, 0x01, 0x00, 0x00, 0xF1].getD 1 0 + 4 := by
  decide

/-- **C5, amended.**  Whenever the inbound codec signals end-of-frame on
a byte stream, the completed frame consists of exactly `LEN + 4` bytes
(KIND, LEN, FUNCTION, LEN payload bytes, CHECKSUM), where `LEN` is the
stream's second byte — and it is precisely the stream's prefix of that
length. -/
theorem c5_frame_length (bs frame : List Nat)
    (h : runCodec .init bs = .success frame) :
    frame.length = bs.getD 1 0 + 4 ∧ frame = bs.take (bs.getD 1 0 + 4) := by
  rcases bs with _ | ⟨c, _ | ⟨c1, rest⟩⟩
  · simp [runCodec] at h
  · rw [runCodec] at h
    by_cases hc : c = Command ∨ c = Reply
    · have hw : WriteByte .init c = .ok ⟨[c], 0, c % 256⟩ := by
        simp [WriteByte, RecvMessage.init, hc]
      rw [hw] at h
      have h' : runCodec ⟨[c], 0, c % 256⟩ [] = .success frame := h
      simp [runCodec] at h'
    · have hw : WriteByte .init c = .err .invalidFrame ⟨[c], 0, 0⟩ := by
        simp [WriteByte, RecvMessage.init, hc]
      rw [hw] at h
      have h' : CodecResult.failure .invalidFrame ⟨[c], 0, 0⟩ = .success frame := h
      simp at h'
  · rw [runCodec] at h
    by_cases hc : c = Command ∨ c = Reply
    · have hw : WriteByte .init c = .ok ⟨[c], 0, c % 256⟩ := by
        simp [WriteByte, RecvMessage.init, hc]
      rw [hw] at h
      have h' : runCodec ⟨[c], 0, c % 256⟩ (c1 :: rest) = .success frame := h
      clear h
      rw [runCodec] at h'
      by_cases hg1 : c = Reply ∧ 1 < c1
      · have hw1 : WriteByte ⟨[c], 0, c % 256⟩ c1 =
            .err .frameTooLong ⟨[c, c1], 0, c % 256⟩ := by
          simp [WriteByte, hg1]
        rw [hw1] at h'
        have h'' : CodecResult.failure .frameTooLong ⟨[c, c1], 0, c % 256⟩ =
            .success frame := h'
        simp at h''
      · by_cases hg2 : 16 < c1
        · have hw1 : WriteByte ⟨[c], 0, c % 256⟩ c1 =
              .err .frameTooLong ⟨[c, c1], 0, c % 256⟩ := by
            simp [WriteByte, hg1, hg2]
          rw [hw1] at h'
          have h'' : CodecResult.failure .frameTooLong ⟨[c, c1], 0, c % 256⟩ =
              .success frame := h'
          simp at h''
        · have hm : (3 + c1) % 256 = 3 + c1 := Nat.mod_eq_of_lt (by omega)
          have hw1 : WriteByte ⟨[c], 0, c % 256⟩ c1 =
              .ok ⟨[c, c1], 3 + c1, (c + c1) % 256⟩ := by
            simp [WriteByte, hg1, hg2, hm, Nat.mod_add_mod]
          rw [hw1] at h'
          have h'' : runCodec ⟨[c, c1], 3 + c1, (c + c1) % 256⟩ rest =
              .success frame := h'
          obtain ⟨hf, hflen⟩ := runCodec_success_mid rest
            ⟨[c, c1], 3 + c1, (c + c1) % 256⟩ frame
            (by show 2 ≤ ([c, c1] : List Nat).length; simp)
            (by show ([c, c1] : List Nat).length ≤ 3 + c1; simp; omega)
            (by show 3 + c1 < 256; omega) h''
          have hflen' : frame.length = 3 + c1 + 1 := hflen
          have hf2 : frame = [c, c1] ++ List.take (3 + c1 + 1 - 2) rest := hf
          rw [show (3 : Nat) + c1 + 1 - 2 = c1 + 2 from by omega] at hf2
          have hgd : (c :: c1 :: rest).getD 1 0 = c1 := by simp [List.getD]
          rw [hgd]
          constructor
          · omega
          · rw [hf2, show c1 + 4 = (c1 + 2) + 1 + 1 from by omega,
              List.take_succ_cons, List.take_succ_cons]
            rfl
    · have hw : WriteByte .init c = .err .invalidFrame ⟨[c], 0, 0⟩ := by
        simp [WriteByte, RecvMessage.init, hc]
      rw [hw] at h
      have h' : CodecResult.failure .invalidFrame ⟨[c], 0, 0⟩ = .success frame := h
      simp at h'

/-- **C5, witness.** -/
theorem c5_frame_length_witness :
    runCodec .init [0xF0, 0x01, 0x00, 0x00, 0xF1] =
      .success [0xF0, 0x01, 0x00, 0x00, 0xF1] ∧
    (([0xF0, 0x01, 0x00, 0x00, 0xF1] : List Nat).length =
        [0xF0, 0x01, 0x00, 0x00, 0xF1].getD 1 0 + 4 ∧
      ([0xF0, 0x01, 0x00, 0x00, 0xF1] : List Nat) =
        [0xF0, 0x01, 0x00, 0x00, 0xF1].take ([0xF0, 0x01, 0x00, 0x00, 0xF1].getD 1 0 + 4)) :=
  ⟨by decide, c5_frame_length [0xF0, 0x01, 0x00, 0x00, 0xF1] _ (by decide)⟩

/-!
## C7 — SetDisplay argument validation
-/

/-- **C7, counterexample.**  The claim says `SetDisplay` fails with
`BadArgument` exactly when a constraint is violated, one constraint
being `indent ∈ [0, 15]`.  But the source only guards `indent > 0xF`:
`SetDisplay(Top, -1, "")` violates `indent ∈ [0, 15]` yet succeeds
(the negative indent wraps to byte `0xFF`). -/
theorem c7_set_display_cex :
    SetDisplayOk (SetDisplay 0 (-1) []) = true ∧ (-1 : Int) < 0 := by
  decide

/-- **C7, amended.**  `SetDisplay(line, indent, text)` fails with
`BadArgument` exactly when `line ∉ {Top, Bottom}`, or `indent > 15`, or
`text` is longer than 16 bytes; it succeeds whenever all three hold —
in particular a negative `indent` is accepted (and truncated to a byte
in the emitted frame). -/
theorem c7_set_display (line indent : Int) (text : List Nat) :
    SetDisplayOk (SetDisplay line indent text) = true ↔
      ((line = 0 ∨ line = 1) ∧ indent ≤ 15 ∧ text.length ≤ 16) := by
  unfold SetDisplay
  split_ifs with h1 h2 h3
  · simp only [SetDisplayOk, Bool.false_eq_true, false_iff]
    intro hcon
    tauto
  · simp only [SetDisplayOk, Bool.false_eq_true, false_iff]
    intro hcon
    omega
  · simp only [SetDisplayOk, Bool.false_eq_true, false_iff]
    intro hcon
    omega
  · simp only [SetDisplayOk, true_iff]
    refine ⟨?_, by omega, by omega⟩
    tauto

/-!
## C8 — flush-recovery burst
-/

/-- **C8, confirmed.**  The write issued by `forceFlushMCU` is exactly
the ten bytes `F0 01 00 00 F1 F0 01 00 00 F1` — two concatenated
`FFlush` frames each carrying its own checksum byte — where `0xF1` is
the byte-sum `(0xF0 + 0x01 + 0x00 + 0x00) % 256`; and on a reply
timeout the handler emits that burst as a single write, ahead of the
frame retry. -/
theorem c8_flush_burst :
    forceFlushData =
      [0xF0, 0x01, 0x00, 0x00, 0xF1, 0xF0, 0x01, 0x00, 0x00, 0xF1] ∧
    checksum flushMCUBuffer = (0xF0 + 0x01 + 0x00 + 0x00) % 256 ∧
    step ⟨false⟩ ⟨some ⟨⟨encode DisplayOn, DefaultRetryLimit⟩, 1⟩⟩ .timeout =
      (⟨some ⟨⟨encode DisplayOn, DefaultRetryLimit⟩, 2⟩⟩,
        [.write forceFlushData, .write (encode DisplayOn)]) := by
  decide

/-!
## C3 — FVersion is acked after all
-/

/-- **C3, code bug.**  The claim (and the source's own comments) say a
Reply must never be written for an inbound Command with function
`0x13`.  But the Command arm of `(*LCM).handle` (`lcm.go` lines
616-639) sends the ack for *every* inbound Command when ack is enabled:
on the version Command `F0 03 13 00 02 09 11` the handler writes the
ack reply `F1 01 13 00 05`. -/
theorem c3_version_ack :
    TypeOf [0xF0, 3, 0x13, 0, 2, 9, 0x11] = Command ∧
    FunctionOf [0xF0, 3, 0x13, 0, 2, 9, 0x11] = some Fversion ∧
    step ⟨true⟩ ⟨none⟩ (.recv [0xF0, 3, 0x13, 0, 2, 9, 0x11]) =
      (⟨none⟩, [.write [0xF1, 1, 0x13, 0, 5],
        .forward [0xF0, 3, 0x13, 0, 2, 9]]) := by
  decide

/-!
## C10 — accessor bounds
-/

/-- **C10, confirmed.**  The accessors `Function`, `Value` and `Ok` are
in bounds (no panic, modelled as `isSome`) for every message that passes
`Check`; yet their only explicit guard is the empty message: `Function`
panics on the 1-byte message `[F0]`, `Ok` panics on the 3-byte message
`[F0 01 11]`, and `Value` slices past the end on the length-4 message
`[F0 05 11 00]` whose `LEN` byte (5) exceeds its actual payload. -/
theorem c10_accessor_bounds :
    (∀ m : List Nat, Check m = none →
      (FunctionOf m).isSome ∧ (ValueOf m).isSome ∧ (OkOf m).isSome) ∧
    FunctionOf [0xF0] = none ∧
    OkOf [0xF0, 0x01, 0x11] = none ∧
    ValueOf [0xF0, 0x05, 0x11, 0x00] = none := by
  refine ⟨?_, by decide, by decide, by decide⟩
  intro m h
  unfold Check at h
  split_ifs at h with h1 h2 h3
  push_neg at h3
  have hlen4 : 4 ≤ m.length := by omega
  rcases m with _ | ⟨t, _ | ⟨l, rest⟩⟩
  · simp at hlen4
  · simp at hlen4
  · have hgd : (t :: l :: rest).getD 1 0 = l := by simp [List.getD]
    have hlm : l + 3 = rest.length + 2 := by
      rw [hgd] at h3; simpa using h3
    refine ⟨?_, ?_, ?_⟩
    · show ((t :: l :: rest)[2]?).isSome = true
      rw [List.getElem?_eq_getElem (by simp; omega)]
      rfl
    · show (ValueOf (t :: l :: rest)).isSome = true
      simp only [ValueOf]
      rw [show (t :: l :: rest)[1]? = some l from by simp]
      show (if 3 + l ≤ (t :: l :: rest).length then
          some (List.take l (List.drop 3 (t :: l :: rest))) else none).isSome = true
      rw [if_pos (by simp; omega)]
      rfl
    · show (((t :: l :: rest)[3]?).map fun v => decide (v = 0)).isSome = true
      rw [List.getElem?_eq_getElem (by simp; omega)]
      rfl

/-- **C10, witness.** -/
theorem c10_accessor_bounds_witness :
    Check DisplayOn = none ∧
    ((FunctionOf DisplayOn).isSome ∧ (ValueOf DisplayOn).isSome ∧
      (OkOf DisplayOn).isSome) :=
  ⟨by decide, c10_accessor_bounds.1 DisplayOn (by decide)⟩

/-!
## Handler step lemmas
-/

/-- Event lists that contain no new `send` (they drive one in-flight
logical send). -/
def noSendEvents : List Event → Bool
  | [] => true
  | .send _ :: _ => false
  | _ :: es => noSendEvents es

lemma step_recv_pending (o : Opts) (p : Pending) (msg : List Nat)
    (hne : ¬ msg.length = 0) :
    step o ⟨some p⟩ (.recv msg) =
      if TypeOf msg = Reply ∧ FunctionOf msg = FunctionOf p.req.data then
        if OkOf msg = some true then (⟨none⟩, [.completeOk]) else (⟨some p⟩, [])
      else stepForward o ⟨some p⟩ msg := by
  simp only [step]
  rw [if_neg hne]

lemma step_recv_zero (o : Opts) (st : HState) (msg : List Nat)
    (hz : msg.length = 0) :
    step o st (.recv msg) = (st, []) := by
  simp only [step]
  rw [if_pos hz]

lemma step_recv_idle (o : Opts) (msg : List Nat) (hne : ¬ msg.length = 0) :
    step o ⟨none⟩ (.recv msg) = stepForward o ⟨none⟩ msg := by
  simp only [step]
  rw [if_neg hne]

lemma step_timeout_pending (o : Opts) (p : Pending) :
    step o ⟨some p⟩ .timeout =
      if p.tries > p.req.retryLimit then
        (⟨none⟩, [.write forceFlushData,
          .completeErr (p.tries - 1) p.req.retryLimit])
      else
        (⟨some ⟨p.req, p.tries + 1⟩⟩,
          [.write forceFlushData, .write p.req.data]) := by
  simp only [step, doRetry]
  split_ifs <;> rfl

lemma step_timeout_idle (o : Opts) : step o ⟨none⟩ .timeout = (⟨none⟩, []) := rfl

lemma step_send_idle (o : Opts) (req : SendReq) :
    step o ⟨none⟩ (.send req) = (⟨some ⟨req, 1⟩⟩, [.write req.data]) := by
  simp only [step, doRetry]
  rw [if_neg (by omega)]

lemma stepForward_ack_false (o : Opts) (st : HState) (msg : List Nat)
    (hack : o.ack = false) :
    stepForward o st msg = (st, [.forward msg.dropLast]) := by
  unfold stepForward
  rw [if_neg (by simp [hack])]
  rfl

lemma runEvents_cons (o : Opts) (st : HState) (e : Event) (es : List Event)
    (st' : HState) (outs : List Output) (h : step o st e = (st', outs)) :
    runEvents o st (e :: es) =
      ((runEvents o st' es).1, outs ++ (runEvents o st' es).2) := by
  rw [runEvents, h]

/-- Total number of serial writes among the outputs. -/
def countAllWrites (outs : List Output) : Nat :=
  outs.countP fun out => match out with | .write _ => true | _ => false

lemma countWrites_le_all (data : List Nat) (outs : List Output) :
    countWrites data outs ≤ countAllWrites outs := by
  apply List.countP_mono_left
  intro a _ h
  have ha : a = Output.write data := of_decide_eq_true h
  subst ha
  rfl

/-- With ack disabled, an idle handler never writes to the serial port
(no matter which non-`send` events arrive). -/
lemma runEvents_idle (o : Opts) (hack : o.ack = false) :
    ∀ es, noSendEvents es = true →
      (runEvents o ⟨none⟩ es).1 = ⟨none⟩ ∧
      countAllWrites (runEvents o ⟨none⟩ es).2 = 0 := by
  intro es
  induction es with
  | nil => intro _; exact ⟨rfl, rfl⟩
  | cons e es ih =>
    intro hns
    have hns' : noSendEvents es = true := by
      cases e with
      | recv msg => simpa [noSendEvents] using hns
      | timeout => simpa [noSendEvents] using hns
      | send req => simp [noSendEvents] at hns
    obtain ⟨outs, hstep, houts⟩ : ∃ outs, step o ⟨none⟩ e = (⟨none⟩, outs) ∧
        countAllWrites outs = 0 := by
      cases e with
      | recv msg =>
        by_cases hz : msg.length = 0
        · exact ⟨[], step_recv_zero o ⟨none⟩ msg hz, rfl⟩
        · refine ⟨[.forward msg.dropLast], ?_, rfl⟩
          rw [step_recv_idle o msg hz, stepForward_ack_false o _ msg hack]
      | timeout => exact ⟨[], step_timeout_idle o, rfl⟩
      | send req => simp [noSendEvents] at hns
    rw [runEvents_cons o _ e es _ outs hstep]
    obtain ⟨ih1, ih2⟩ := ih hns'
    refine ⟨ih1, ?_⟩
    simp only [countAllWrites, List.countP_append] at ih2 houts ⊢
    omega

/-- With ack disabled, driving one in-flight send with any non-`send`
events yields at most `retryLimit + 1 - tries` further writes of its
frame. -/
lemma pending_writes_bound (o : Opts) (hack : o.ack = false) :
    ∀ es (p : Pending), noSendEvents es = true →
      p.req.data ≠ forceFlushData →
      countWrites p.req.data (runEvents o ⟨some p⟩ es).2 ≤
        p.req.retryLimit + 1 - p.tries := by
  intro es
  induction es with
  | nil => intro p _ _; exact Nat.zero_le _
  | cons e es ih =>
    intro p hns hneq
    have hns' : noSendEvents es = true := by
      cases e with
      | recv msg => simpa [noSendEvents] using hns
      | timeout => simpa [noSendEvents] using hns
      | send req => simp [noSendEvents] at hns
    cases e with
    | send req => simp [noSendEvents] at hns
    | timeout =>
      by_cases hlim : p.tries > p.req.retryLimit
      · rw [runEvents_cons o _ _ es _ _
          ((step_timeout_pending o p).trans (if_pos hlim))]
        simp only [countWrites, List.countP_append]
        have h0 : countWrites p.req.data
            [Output.write forceFlushData,
              Output.completeErr (p.tries - 1) p.req.retryLimit] = 0 := by
          simp [countWrites, hneq.symm]
        simp only [countWrites] at h0
        have hidle := (runEvents_idle o hack es hns').2
        have hle := countWrites_le_all p.req.data (runEvents o ⟨none⟩ es).2
        simp only [countWrites] at hle
        omega
      · rw [runEvents_cons o _ _ es _ _
          ((step_timeout_pending o p).trans (if_neg hlim))]
        simp only [countWrites, List.countP_append]
        have h1 : countWrites p.req.data
            [Output.write forceFlushData, Output.write p.req.data] = 1 := by
          simp [countWrites, hneq.symm]
        simp only [countWrites] at h1
        have hrest := ih ⟨p.req, p.tries + 1⟩ hns' hneq
        simp only [countWrites] at hrest
        omega
    | recv msg =>
      by_cases hz : msg.length = 0
      · rw [runEvents_cons o _ _ es _ _ (step_recv_zero o ⟨some p⟩ msg hz)]
        simpa [countWrites] using ih p hns' hneq
      · by_cases hm : TypeOf msg = Reply ∧ FunctionOf msg = FunctionOf p.req.data
        · by_cases hok : OkOf msg = some true
          · rw [runEvents_cons o _ _ es _ _
              (((step_recv_pending o p msg hz).trans (if_pos hm)).trans (if_pos hok))]
            simp only [countWrites, List.countP_append]
            have h0 : List.countP
                (fun out => decide (out = Output.write p.req.data))
                [Output.completeOk] = 0 := rfl
            have hidle := (runEvents_idle o hack es hns').2
            have hle := countWrites_le_all p.req.data (runEvents o ⟨none⟩ es).2
            simp only [countWrites] at hle
            omega
          · rw [runEvents_cons o _ _ es _ _
              (((step_recv_pending o p msg hz).trans (if_pos hm)).trans (if_neg hok))]
            simpa [countWrites] using ih p hns' hneq
        · rw [runEvents_cons o _ _ es _ _
            (((step_recv_pending o p msg hz).trans (if_neg hm)).trans
              (stepForward_ack_false o _ msg hack))]
          simp only [countWrites, List.countP_append]
          have hrest := ih p hns' hneq
          simp only [countWrites] at hrest
          have h0 : List.countP
              (fun out => decide (out = Output.write p.req.data))
              [Output.forward msg.dropLast] = 0 := by simp
          omega

/-- With repeated timeouts, a pending send is eventually completed with
the retry-limit-exceeded error carrying `retryLimit/retryLimit`. -/
lemma timeout_exhaust (o : Opts) :
    ∀ n (p : Pending), p.tries ≤ p.req.retryLimit + 1 →
      p.tries + n = p.req.retryLimit + 2 →
      Output.completeErr p.req.retryLimit p.req.retryLimit ∈
        (runEvents o ⟨some p⟩ (List.replicate n .timeout)).2 := by
  intro n
  induction n with
  | zero => intro p hle heq; omega
  | succ k ih =>
    intro p hle heq
    by_cases hlim : p.tries > p.req.retryLimit
    · have ht : p.tries = p.req.retryLimit + 1 := by omega
      rw [List.replicate_succ, runEvents_cons o _ _ _ _ _
        ((step_timeout_pending o p).trans (if_pos hlim))]
      apply List.mem_append_left
      rw [ht]
      simp
    · rw [List.replicate_succ, runEvents_cons o _ _ _ _ _
        ((step_timeout_pending o p).trans (if_neg hlim))]
      apply List.mem_append_right
      exact ih ⟨p.req, p.tries + 1⟩
        (by show p.tries + 1 ≤ p.req.retryLimit + 1; omega)
        (by show p.tries + 1 + k = p.req.retryLimit + 2; omega)

/-!
## C2 — reaction to a matching error Reply
-/

/-- **C2, counterexample.**  With `DisplayOn` in flight, the matching
error Reply `F1 01 11 02 05` produces *no* outputs at all — the engine
does not retry the send; the retry happens only when the reply timeout
fires, and that path always emits the flush burst before rewriting the
frame. -/
theorem c2_error_reply_cex :
    step ⟨false⟩ ⟨some ⟨⟨encode DisplayOn, DefaultRetryLimit⟩, 1⟩⟩
        (.recv [0xF1, 1, 0x11, 2, 5]) =
      (⟨some ⟨⟨encode DisplayOn, DefaultRetryLimit⟩, 1⟩⟩, []) ∧
    step ⟨false⟩ ⟨some ⟨⟨encode DisplayOn, DefaultRetryLimit⟩, 1⟩⟩ .timeout =
      (⟨some ⟨⟨encode DisplayOn, DefaultRetryLimit⟩, 2⟩⟩,
        [.write forceFlushData, .write (encode DisplayOn)]) ∧
    TypeOf [0xF1, 1, 0x11, 2, 5] = Reply ∧
    FunctionOf [0xF1, 1, 0x11, 2, 5] = FunctionOf (encode DisplayOn) ∧
    OkOf [0xF1, 1, 0x11, 2, 5] = some false := by
  decide

/-- **C2, amended.**  When an inbound Reply matches the pending send's
function but reports an error (`ok == false`), the handler only logs it:
no write, no flush, no completion, state unchanged — the frame is *not*
retried at that point.  The retry of the same send then happens when the
armed reply timeout fires, and it is preceded by the flush burst. -/
theorem c2_error_reply (o : Opts) (p : Pending) (msg : List Nat)
    (ht : TypeOf msg = Reply)
    (hf : FunctionOf msg = FunctionOf p.req.data)
    (hok : OkOf msg = some false)
    (htries : p.tries ≤ p.req.retryLimit) :
    step o ⟨some p⟩ (.recv msg) = (⟨some p⟩, []) ∧
    step o ⟨some p⟩ .timeout =
      (⟨some ⟨p.req, p.tries + 1⟩⟩,
        [.write forceFlushData, .write p.req.data]) := by
  have hne : ¬ msg.length = 0 := by
    intro hz
    rw [List.length_eq_zero] at hz
    subst hz
    simp [TypeOf, Reply] at ht
  constructor
  · rw [step_recv_pending o p msg hne, if_pos ⟨ht, hf⟩,
      if_neg (by rw [hok]; simp)]
  · rw [step_timeout_pending o p, if_neg (by omega)]

/-- **C2, witness.** -/
theorem c2_error_reply_witness :
    (TypeOf [0xF1, 1, 0x11, 2, 5] = Reply ∧
      FunctionOf [0xF1, 1, 0x11, 2, 5] = FunctionOf (encode DisplayOn) ∧
      OkOf [0xF1, 1, 0x11, 2, 5] = some false ∧ 1 ≤ DefaultRetryLimit) ∧
    (step ⟨true⟩ ⟨some ⟨⟨encode DisplayOn, DefaultRetryLimit⟩, 1⟩⟩
        (.recv [0xF1, 1, 0x11, 2, 5]) =
      (⟨some ⟨⟨encode DisplayOn, DefaultRetryLimit⟩, 1⟩⟩, []) ∧
    step ⟨true⟩ ⟨some ⟨⟨encode DisplayOn, DefaultRetryLimit⟩, 1⟩⟩ .timeout =
      (⟨some ⟨⟨encode DisplayOn, DefaultRetryLimit⟩, 2⟩⟩,
        [.write forceFlushData, .write (encode DisplayOn)])) :=
  ⟨⟨by decide, by decide, by decide, by decide⟩,
    c2_error_reply ⟨true⟩ ⟨⟨encode DisplayOn, DefaultRetryLimit⟩, 1⟩
      [0xF1, 1, 0x11, 2, 5] (by decide) (by decide) (by decide) (by decide)⟩

/-!
## C4 — retry limit
-/

/-- **C4, counterexample.**  With the default limit 50, a send followed
by repeated timeouts writes the frame 51 times — `retry()` checks
`tries > retryLimit` *before* incrementing, so one initial write plus 50
retries happen before the retry-exceeded completion — contradicting "at
most 50 write attempts". -/
theorem c4_retry_limit_cex :
    countWrites (encode DisplayOn)
      (runEvents ⟨false⟩ ⟨none⟩
        (.send ⟨encode DisplayOn, DefaultRetryLimit⟩ ::
          List.replicate 51 .timeout)).2 = 51 ∧
    ¬ (countWrites (encode DisplayOn)
      (runEvents ⟨false⟩ ⟨none⟩
        (.send ⟨encode DisplayOn, DefaultRetryLimit⟩ ::
          List.replicate 51 .timeout)).2 ≤ DefaultRetryLimit) ∧
    Output.completeErr DefaultRetryLimit DefaultRetryLimit ∈
      (runEvents ⟨false⟩ ⟨none⟩
        (.send ⟨encode DisplayOn, DefaultRetryLimit⟩ ::
          List.replicate 51 .timeout)).2 := by
  decide

/-- **C4, amended.**  With ack disabled, a logical send performs at most
`retryLimit + 1` write attempts of its frame (one initial write plus up
to `retryLimit` retries), whatever non-`send` events follow; and when
the limit is exhausted by repeated timeouts, the send completes with the
retry-exceeded error reporting `retryLimit/retryLimit`. -/
theorem c4_retry_limit (o : Opts) (req : SendReq) (es : List Event)
    (hack : o.ack = false) (hns : noSendEvents es = true)
    (hneq : req.data ≠ forceFlushData) :
    countWrites req.data (runEvents o ⟨none⟩ (.send req :: es)).2 ≤
      req.retryLimit + 1 ∧
    Output.completeErr req.retryLimit req.retryLimit ∈
      (runEvents o ⟨none⟩
        (.send req :: List.replicate (req.retryLimit + 1) .timeout)).2 := by
  constructor
  · rw [runEvents_cons o _ _ es _ _ (step_send_idle o req)]
    simp only [countWrites, List.countP_append]
    have h1 : List.countP (fun out => decide (out = Output.write req.data))
        [Output.write req.data] = 1 := by simp
    have hrest := pending_writes_bound o hack es ⟨req, 1⟩ hns hneq
    simp only [countWrites] at hrest
    omega
  · rw [runEvents_cons o _ _ _ _ _ (step_send_idle o req)]
    apply List.mem_append_right
    exact timeout_exhaust o (req.retryLimit + 1) ⟨req, 1⟩
      (by show 1 ≤ req.retryLimit + 1; omega)
      (by show 1 + (req.retryLimit + 1) = req.retryLimit + 2; omega)

/-- **C4, witness.** -/
theorem c4_retry_limit_witness :
    ((⟨false⟩ : Opts).ack = false ∧ noSendEvents [] = true ∧
      encode DisplayOn ≠ forceFlushData) ∧
    (countWrites (encode DisplayOn)
        (runEvents ⟨false⟩ ⟨none⟩
          ([.send ⟨encode DisplayOn, DefaultRetryLimit⟩] : List Event)).2 ≤
      DefaultRetryLimit + 1 ∧
    Output.completeErr DefaultRetryLimit DefaultRetryLimit ∈
      (runEvents ⟨false⟩ ⟨none⟩
        (.send ⟨encode DisplayOn, DefaultRetryLimit⟩ ::
          List.replicate (DefaultRetryLimit + 1) .timeout)).2) :=
  ⟨⟨rfl, rfl, by decide⟩,
    c4_retry_limit ⟨false⟩ ⟨encode DisplayOn, DefaultRetryLimit⟩ []
      rfl rfl (by decide)⟩

/-!
## C6 — flush-ack Replies are forwarded
-/

/-- **C6, counterexample.**  With `DisplayOn` in flight, the OK Reply
`F1 01 00 00 F2` for function `0x00` does not match the pending send
(so it neither completes nor fails it), but the handler *does* forward
it (checksum-stripped) to the application receive queue — `Recv` can
return it, contradicting "not forwarded". -/
theorem c6_flush_ack_cex :
    step ⟨false⟩ ⟨some ⟨⟨encode DisplayOn, DefaultRetryLimit⟩, 1⟩⟩
        (.recv [0xF1, 1, 0, 0, 0xF2]) =
      (⟨some ⟨⟨encode DisplayOn, DefaultRetryLimit⟩, 1⟩⟩,
        [.forward [0xF1, 1, 0, 0]]) ∧
    TypeOf [0xF1, 1, 0, 0, 0xF2] = Reply ∧
    FunctionOf [0xF1, 1, 0, 0, 0xF2] = some fflush ∧
    OkOf [0xF1, 1, 0, 0, 0xF2] = some true := by
  decide

/-- **C6, amended.**  An inbound OK Reply for function `0x00` arriving
while a send with a different function is outstanding is logged, does
not complete or fail the outstanding send (handler state unchanged, no
completion output, no write) — but it *is* forwarded, checksum-stripped,
to the application receive queue. -/
theorem c6_flush_ack (o : Opts) (p : Pending) (msg : List Nat)
    (ht : TypeOf msg = Reply)
    (hf : FunctionOf msg = some fflush)
    (_hok : OkOf msg = some true)
    (hnf : FunctionOf p.req.data ≠ some fflush) :
    step o ⟨some p⟩ (.recv msg) = (⟨some p⟩, [.forward msg.dropLast]) := by
  have hne : ¬ msg.length = 0 := by
    intro hz
    rw [List.length_eq_zero] at hz
    subst hz
    simp [TypeOf, Reply] at ht
  rw [step_recv_pending o p msg hne,
    if_neg (by rintro ⟨-, heq⟩; exact hnf (by rw [← heq, hf]))]
  unfold stepForward
  rw [if_neg (by rintro ⟨hc, -⟩; rw [ht] at hc; exact absurd hc (by decide))]
  rfl

/-- **C6, witness.** -/
theorem c6_flush_ack_witness :
    (TypeOf [0xF1, 1, 0, 0, 0xF2] = Reply ∧
      FunctionOf [0xF1, 1, 0, 0, 0xF2] = some fflush ∧
      OkOf [0xF1, 1, 0, 0, 0xF2] = some true ∧
      FunctionOf (encode DisplayOn) ≠ some fflush) ∧
    step ⟨false⟩ ⟨some ⟨⟨encode DisplayOn, DefaultRetryLimit⟩, 1⟩⟩
        (.recv [0xF1, 1, 0, 0, 0xF2]) =
      (⟨some ⟨⟨encode DisplayOn, DefaultRetryLimit⟩, 1⟩⟩,
        [.forward ([0xF1, 1, 0, 0, 0xF2] : List Nat).dropLast]) :=
  ⟨⟨by decide, by decide, by decide, by decide⟩,
    c6_flush_ack ⟨false⟩ ⟨⟨encode DisplayOn, DefaultRetryLimit⟩, 1⟩
      [0xF1, 1, 0, 0, 0xF2] (by decide) (by decide) (by decide) (by decide)⟩

/-!
## C9 — Scroll covers every window in order
-/

/-- The `Scroll` emission at index `j` before any wrap: frame for window
`j`, `start` iff `j = 0`, `done` iff the window reaches the end. -/
def scrollEmit (line : Int) (text : List Nat) (j : Nat) : List Nat × Bool × Bool :=
  ((SetDisplay line 0 (window text j)).toOption.getD [],
    decide (j = 0), decide (text.length ≤ j + 16))

lemma exceptMatch_getD (e : Except SetDisplayErr (List Nat)) :
    (match e with | .ok b => b | .error _ => []) = e.toOption.getD [] := by
  cases e <;> rfl

lemma window_length_le (text : List Nat) (j : Nat) : (window text j).length ≤ 16 := by
  simp [window]

/-- A valid `line` with indent 0 and a ≤16-byte window always encodes. -/
lemma setDisplay_window (line : Int) (hline : line = 0 ∨ line = 1)
    (t : List Nat) (ht : t.length ≤ 16) :
    SetDisplay line 0 t =
      .ok ([Command, 0x12, Ftext, (line % 256).toNat, 0x00] ++
        (t ++ List.replicate (16 - t.length) 0x20)) := by
  unfold SetDisplay
  rw [if_neg (by tauto), if_neg (by norm_num), if_neg (by omega)]
  rfl

lemma scrollNext_mid (line : Int) (text : List Nat) (k : Nat) (d : Bool)
    (h : k + 16 < text.length) :
    scrollNext line text ⟨k, d⟩ =
      (((SetDisplay line 0 (window text k)).toOption.getD [],
        decide (k = 0), d), ⟨k + 1, d⟩) := by
  simp only [scrollNext]
  rw [if_neg (show ¬ k + 16 ≥ text.length from by omega),
    if_neg (show ¬ k + 16 > text.length from by omega), exceptMatch_getD]

lemma scrollNext_last (line : Int) (text : List Nat) (k : Nat) (d : Bool)
    (heq : k + 16 = text.length) :
    scrollNext line text ⟨k, d⟩ =
      (((SetDisplay line 0 (window text k)).toOption.getD [],
        decide (k = 0), true), ⟨k + 1, true⟩) := by
  simp only [scrollNext]
  rw [if_pos (show k + 16 ≥ text.length from by omega),
    if_neg (show ¬ k + 16 > text.length from by omega), exceptMatch_getD]

lemma scrollNext_wrap (line : Int) (text : List Nat) (k : Nat) (d : Bool)
    (hgt : text.length < k + 16) :
    scrollNext line text ⟨k, d⟩ =
      (((SetDisplay line 0 (window text 0)).toOption.getD [], true, true),
        ⟨1, true⟩) := by
  simp only [scrollNext]
  rw [if_pos (show k + 16 ≥ text.length from by omega),
    if_pos (show k + 16 > text.length from by omega), exceptMatch_getD]
  simp

/-- One unfolding of the `scrollRun` loop. -/
lemma scrollRun_step (line : Int) (text : List Nat) (fuel : Nat)
    (s : ScrollState) (e : List Nat × Bool × Bool) (s' : ScrollState)
    (h : scrollNext line text s = (e, s')) :
    scrollRun line text (fuel + 1) s =
      if e.2.1 ∧ e.2.2 then [e] else e :: scrollRun line text fuel s' := by
  rw [scrollRun, h]

/-- Trace of a run from index `k` (no wrap yet), `k + 16 + m = length`:
the emissions walk the windows `k, k+1, …, length - 16` in order and
finish with the wrapped `start && done` emission of window 0. -/
lemma scrollRun_from (line : Int) (text : List Nat) :
    ∀ (m k fuel : Nat), 16 < text.length → k + 16 + m = text.length →
      m + 2 ≤ fuel →
      scrollRun line text fuel ⟨k, false⟩ =
        (List.range' k (m + 1)).map (scrollEmit line text) ++
          [((SetDisplay line 0 (window text 0)).toOption.getD [], true, true)] := by
  intro m
  induction m with
  | zero =>
    intro k fuel hlen hk hfuel
    obtain ⟨g, rfl⟩ : ∃ g, fuel = g + 1 + 1 := ⟨fuel - 2, by omega⟩
    have hd0 : decide (k = 0) = false := by
      simp
      omega
    rw [scrollRun_step line text (g + 1) ⟨k, false⟩ _ _
      (scrollNext_last line text k false (by omega)), if_neg (by simp [hd0])]
    rw [scrollRun_step line text g ⟨k + 1, true⟩ _ _
      (scrollNext_wrap line text (k + 1) true (by omega)), if_pos (by simp)]
    have hd1 : decide (text.length ≤ k + 16) = true := by
      simp
      omega
    simp [scrollEmit, List.range'_one, hd1, hd0]
  | succ m ih =>
    intro k fuel hlen hk hfuel
    obtain ⟨g, rfl⟩ : ∃ g, fuel = g + 1 := ⟨fuel - 1, by omega⟩
    rw [scrollRun_step line text g ⟨k, false⟩ _ _
      (scrollNext_mid line text k false (by omega)), if_neg (by simp)]
    rw [ih (k + 1) g hlen (by omega) (by omega)]
    have hd1 : decide (text.length ≤ k + 16) = false := by
      simp
      omega
    simp [scrollEmit, List.range'_succ, hd1]

/-- **C9, confirmed.**  Running the `Scroll(line, text)` generator until
the first emission with `start && done` produces, at position `i` of the
trace, exactly the `SetDisplay` frame for the window
`text[i : min (i + 16) len]`, for every `i ≤ len - 16` in order of
increasing `i`; the run terminates, its last emission carrying
`start = done = true`. -/
theorem c9_scroll_windows (line : Int) (text : List Nat)
    (hline : line = 0 ∨ line = 1) :
    (∀ i, i ≤ text.length - 16 →
      ((scrollTrace line text)[i]?).map Prod.fst =
        some ([Command, 0x12, Ftext, (line % 256).toNat, 0x00] ++
          (window text i ++
            List.replicate (16 - (window text i).length) 0x20))) ∧
    ((scrollTrace line text).getLast?).map (fun e => e.2) = some (true, true) := by
  have hsd : ∀ j, (SetDisplay line 0 (window text j)).toOption.getD [] =
      [Command, 0x12, Ftext, (line % 256).toNat, 0x00] ++
        (window text j ++ List.replicate (16 - (window text j).length) 0x20) := by
    intro j
    rw [setDisplay_window line hline (window text j) (window_length_le text j)]
    rfl
  by_cases hlen : text.length ≤ 16
  · have hstep : scrollNext line text ⟨0, false⟩ =
        (((SetDisplay line 0 (window text 0)).toOption.getD [], true, true),
          ⟨1, true⟩) := by
      rcases eq_or_lt_of_le hlen with heq | hlt
      · simpa using scrollNext_last line text 0 false (by omega)
      · simpa using scrollNext_wrap line text 0 false (by omega)
    have htr : scrollTrace line text =
        [((SetDisplay line 0 (window text 0)).toOption.getD [], true, true)] := by
      unfold scrollTrace
      obtain ⟨g, hg⟩ : ∃ g, text.length + 2 = g + 1 := ⟨text.length + 1, by omega⟩
      rw [hg, scrollRun_step line text g ⟨0, false⟩ _ _ hstep, if_pos (by simp)]
    constructor
    · intro i hi
      have hi0 : i = 0 := by omega
      subst hi0
      rw [htr]
      simp [hsd 0]
    · rw [htr]
      simp
  · push_neg at hlen
    have htr : scrollTrace line text =
        (List.range' 0 (text.length - 16 + 1)).map (scrollEmit line text) ++
          [((SetDisplay line 0 (window text 0)).toOption.getD [], true, true)] :=
      scrollRun_from line text (text.length - 16) 0 (text.length + 2)
        hlen (by omega) (by omega)
    constructor
    · intro i hi
      rw [htr, List.getElem?_append]
      rw [if_pos (by simp [List.length_range']; omega)]
      rw [List.getElem?_map, List.getElem?_range' 0 1 (by omega : i < text.length - 16 + 1)]
      simp only [Option.map_some, Nat.zero_add, Nat.one_mul]
      simp [scrollEmit, hsd i]
    · rw [htr, List.getLast?_concat]
      rfl

/-- **C9, witness.** -/
theorem c9_scroll_windows_witness :
    ((0 : Int) = 0 ∨ (0 : Int) = 1) ∧
    ((scrollTrace 0 (List.replicate 17 0x41))[1]?).map Prod.fst =
      some ([Command, 0x12, Ftext, ((0 : Int) % 256).toNat, 0x00] ++
        (window (List.replicate 17 0x41) 1 ++
          List.replicate (16 - (window (List.replicate 17 0x41) 1).length) 0x20)) :=
  ⟨Or.inl rfl,
    (c9_scroll_windows 0 (List.replicate 17 0x41) (Or.inl rfl)).1 1 (by decide)⟩

end LCM
